import Mathlib

/-!
# SriDB storage core: a verification development

A shallow embedding of the slotted page (`src/storage/Page.cpp`) and the
buffer pool manager (`src/buffer/BufferPoolManager.{h,c}pp`), together with
theorems settling the specification claims about them.

Conventions of the embedding:
* `uint16_t` values are `Nat` with the wrap-around of C++ conversions made
  explicit through `u16ofInt` / `% U16_MOD` exactly where the source performs
  a narrowing store or an unsigned subtraction.
* On the target platform `sizeof(PageHeader) = 6` (three packed `uint16_t`)
  and `sizeof(Slot) = 6` (`uint16_t offset`, `uint16_t length`, `bool`
  padded to alignment 2).
* The page buffer is split into the structured slot directory (the first
  `num_of_slots` entries, a `List Slot`) and the record heap (a total byte
  map `Nat → Nat`); the source only ever accesses the directory through
  typed `Slot*` pointers and the heap through `buffer + offset`, so this
  split is faithful for the states the claims quantify over.  Writes the
  source performs past the 4096-byte buffer (undefined behaviour in C++)
  appear in the model as heap writes at indices `≥ PAGE_SIZE`.
* Fallible operations return `Bool × PageState`, mirroring the C++ return
  value plus the mutated object.
-/

namespace SriDB

def PAGE_SIZE : Nat := 4096
def HEADER_SIZE : Nat := 6
def SLOT_SIZE : Nat := 6
def U16_MOD : Nat := 65536

/-- The value stored when a C++ `int` expression is converted to `uint16_t`. -/
def u16ofInt (z : Int) : Nat := (z.emod 65536).toNat

structure Slot where
  offset : Nat
  length : Nat
  isDeleted : Bool
  deriving DecidableEq

def noSlot : Slot := ⟨0, 0, false⟩

structure PageState where
  slots : List Slot
  free_space_start : Nat
  free_space_end : Nat
  heap : Nat → Nat

/-- `memcpy(h + off, data, data.length)`. -/
def writeBytes (h : Nat → Nat) (off : Nat) (data : List Nat) : Nat → Nat :=
  fun a => if off ≤ a ∧ a < off + data.length then data.getD (a - off) 0 else h a

/-- `memmove(h + dst, h + src, len)` (overlap-safe: all reads happen first). -/
def moveBytes (h : Nat → Nat) (dst src len : Nat) : Nat → Nat :=
  fun a => if dst ≤ a ∧ a < dst + len then h (a - dst + src) else h a

def readBytes (h : Nat → Nat) (off len : Nat) : List Nat :=
  (List.range len).map (fun j => h (off + j))

/-- `Page::resetMemory`: zeroed buffer, `num_of_slots = 0`,
`free_space_start = sizeof(PageHeader)`, `free_space_end = PAGE_SIZE`. -/
def emptyPage : PageState :=
  { slots := [], free_space_start := HEADER_SIZE, free_space_end := PAGE_SIZE,
    heap := fun _ => 0 }

/-- `Page::insertRecord`.  `new_record_start = free_space_end - length` is a
`uint16_t` subtraction and wraps; the guard is `slot_array_end >= new_record_start`. -/
def insertRecord (p : PageState) (data : List Nat) : Bool × PageState :=
  let length := data.length
  let new_record_start := u16ofInt ((p.free_space_end : Int) - (length : Int))
  let slot_array_end := (HEADER_SIZE + (p.slots.length + 1) * SLOT_SIZE) % U16_MOD
  if new_record_start ≤ slot_array_end then (false, p)
  else
    (true,
      { slots := p.slots ++ [⟨new_record_start, length, false⟩],
        free_space_start := slot_array_end,
        free_space_end := new_record_start,
        heap := writeBytes p.heap new_record_start data })

/-- `Page::getRecord`, as the borrowed view of the record's bytes
(`null` becomes `none`). -/
def getRecordBytes (p : PageState) (slot_num : Nat) : Option (List Nat) :=
  if slot_num < p.slots.length then
    let s := p.slots.getD slot_num noSlot
    if s.isDeleted then none
    else some (readBytes p.heap s.offset s.length)
  else none

/-- `Page::deleteRecord`. -/
def deleteRecord (p : PageState) (slot_num : Nat) : Bool × PageState :=
  if p.slots.length ≤ slot_num then (false, p)
  else
    let s := p.slots.getD slot_num noSlot
    if s.isDeleted then (false, p)
    else (true, { p with slots := p.slots.set slot_num { s with isDeleted := true } })

def getNumberOfRecords (p : PageState) : Nat :=
  (p.slots.filter (fun s => !s.isDeleted)).length

/-- `Page::updateRecord`.  The shrink path (`slot->length >= length`)
overwrites in place; the grow path appends a tombstone carrying the old
`offset/length`, writes the new bytes at `free_space_end - length`, redirects
the slot, retracts `free_space_end` — and, like the source, leaves
`free_space_start` untouched. -/
def updateRecord (p : PageState) (slot_num : Nat) (data : List Nat) : Bool × PageState :=
  if p.slots.length ≤ slot_num then (false, p)
  else
    let s := p.slots.getD slot_num noSlot
    if s.isDeleted then (false, p)
    else if data.length ≤ s.length then
      (true, { p with heap := writeBytes p.heap s.offset data })
    else
      let new_free_space_start := u16ofInt ((p.free_space_end : Int) - (data.length : Int))
      let new_slot_offset := (HEADER_SIZE + (p.slots.length + 1) * SLOT_SIZE) % U16_MOD
      if new_free_space_start ≤ new_slot_offset then (false, p)
      else
        (true,
          { slots := (p.slots ++ [{ s with isDeleted := true }]).set slot_num
                { s with offset := new_free_space_start, length := data.length },
            free_space_start := p.free_space_start,
            free_space_end := new_free_space_start,
            heap := writeBytes p.heap new_free_space_start data })

/-- One step of `std::sort`'s effect, specialised: insertion into a list kept
in strictly descending order of the first component.  For the distinct keys
arising in the concrete states below this agrees with the source's
`std::sort(..., A.first > B.first)`. -/
def insertPairDesc (x : Nat × Nat) : List (Nat × Nat) → List (Nat × Nat)
  | [] => [x]
  | y :: ys => if y.1 < x.1 then x :: y :: ys else y :: insertPairDesc x ys

def sortPairsDesc (l : List (Nat × Nat)) : List (Nat × Nat) :=
  l.foldr insertPairDesc []

/-- Phase 1 of `Page::compactPage`: walk the sorted `(captured offset, index)`
pairs, accumulate the tombstone gap, and shift each live record's bytes and
its directory entry's `offset` toward `PAGE_SIZE`. -/
def compactPhase1 (dir : List Slot) (heap : Nat → Nat) (gap last : Nat) :
    List (Nat × Nat) → List Slot × (Nat → Nat) × Nat
  | [] => (dir, heap, last)
  | (_, i) :: rest =>
    let s := dir.getD i noSlot
    if s.isDeleted then compactPhase1 dir heap (gap + s.length) last rest
    else
      let newOff := (s.offset + gap) % U16_MOD
      compactPhase1 (dir.set i { s with offset := newOff })
        (moveBytes heap newOff s.offset s.length) gap newOff rest

/-- Phase 2 of `Page::compactPage`: rebuild the directory.  The source reads
each surviving entry through a pointer into the directory it is overwriting
(`*getSlot(num_of_slots) = *(slot.second)`), so reads here go to the
*current* directory `dir`, not to a snapshot. -/
def compactPhase2 (dir : List Slot) (cnt : Nat) :
    List (Nat × Nat) → List Slot × Nat
  | [] => (dir, cnt)
  | (_, i) :: rest =>
    let s := dir.getD i noSlot
    if s.isDeleted then compactPhase2 dir cnt rest
    else compactPhase2 (dir.set cnt s) (cnt + 1) rest

/-- `Page::compactPage`. -/
def compactPage (p : PageState) : PageState :=
  let pairs := sortPairsDesc ((List.range p.slots.length).map
      (fun i => ((p.slots.getD i noSlot).offset, i)))
  let r1 := compactPhase1 p.slots p.heap 0 PAGE_SIZE pairs
  let r2 := compactPhase2 r1.1 0 pairs
  { slots := r2.1.take r2.2,
    free_space_start := (HEADER_SIZE + r2.2 * SLOT_SIZE) % U16_MOD,
    free_space_end := r1.2.2,
    heap := r1.2.1 }

/-- `Page::getTotalFreeSpace`.  The source computes
`free_space_end - free_space_end` (not `- free_space_start`) as the
contiguous part, so only tombstone lengths are counted. -/
def getTotalFreeSpace (p : PageState) : Nat :=
  let base := u16ofInt ((p.free_space_end : Int) - (p.free_space_end : Int))
  p.slots.foldl (fun total s => if s.isDeleted then (total + s.length) % U16_MOD else total) base

/-- `Page::insertRecordSmart`. -/
def insertRecordSmart (p : PageState) (data : List Nat) : Bool × PageState :=
  let r := insertRecord p data
  if r.1 then r
  else
    let totalFreeSpace := getTotalFreeSpace p
    let neededSpace := (data.length + SLOT_SIZE) % U16_MOD
    if totalFreeSpace < neededSpace then (false, p)
    else insertRecord (compactPage p) data

/-- Modelled from the spec's words (§8, insert-smart law): "total free space
counts contiguous free bytes plus tombstoned lengths".  Used only to compare
the spec's feasibility measure against the source's `getTotalFreeSpace`. -/
def specTotalFreeSpace (p : PageState) : Nat :=
  (p.free_space_end - p.free_space_start) +
    (p.slots.filter (fun s => s.isDeleted)).foldl (fun t s => t + s.length) 0

/-- The multiset of byte strings of the non-tombstoned records. -/
def liveRecords (p : PageState) : List (List Nat) :=
  (p.slots.filter (fun s => !s.isDeleted)).map
    (fun s => readBytes p.heap s.offset s.length)

/-- Two byte ranges do not overlap. -/
def rangesDisjoint (a b : Slot) : Prop :=
  a.offset + a.length ≤ b.offset ∨ b.offset + b.length ≤ a.offset

instance (a b : Slot) : Decidable (rangesDisjoint a b) := by
  unfold rangesDisjoint; infer_instance

/-- The layout invariants 1-4 of spec section 3.1 (invariant 5 imposes no
constraint on a single state: tombstones merely keep their fields). -/
def PageInv (p : PageState) : Prop :=
  HEADER_SIZE ≤ p.free_space_start ∧
  p.free_space_start ≤ p.free_space_end ∧
  p.free_space_end ≤ PAGE_SIZE ∧
  p.free_space_start = HEADER_SIZE + p.slots.length * SLOT_SIZE ∧
  (∀ s ∈ p.slots, s.isDeleted = false →
    p.free_space_end ≤ s.offset ∧ s.offset + s.length ≤ PAGE_SIZE) ∧
  (p.slots.filter (fun s => !s.isDeleted)).Pairwise rangesDisjoint

instance (p : PageState) : Decidable (PageInv p) := by
  unfold PageInv; infer_instance

/-- A page satisfying the §3.1 invariants whose single live record fills
bytes [30, 4096): `free_space_end = 30`. -/
def nearlyFullPage : PageState :=
  { slots := [⟨30, 4066, false⟩], free_space_start := 12, free_space_end := 30,
    heap := fun _ => 0 }

/-- A page satisfying the §3.1 invariants with 10 contiguous free bytes and
one 8-byte tombstone: two live 2027-byte records at [42, 2069) and
[2069, 4096), a tombstone at [34, 42). -/
def fragmentedPage : PageState :=
  { slots := [⟨42, 2027, false⟩, ⟨2069, 2027, false⟩, ⟨34, 8, true⟩],
    free_space_start := 24, free_space_end := 34, heap := fun _ => 0 }

/-- A page satisfying the §3.1 invariants on which the live record at the
lowest offset (slot 0) follows the live record at a higher offset (slot 1)
in the directory, as produced by a grow-update; slot 2 is its tombstone. -/
def overwritePage : PageState :=
  { slots := [⟨4082, 6, false⟩, ⟨4088, 4, false⟩, ⟨4092, 4, true⟩],
    free_space_start := 24, free_space_end := 4082,
    heap := fun a =>
      if 4082 ≤ a ∧ a < 4088 then 3
      else if 4088 ≤ a ∧ a < 4092 then 2
      else if 4092 ≤ a ∧ a < 4096 then 1 else 0 }

/-!
## BufferPoolManager

The pool state mirrors `BufferPoolManager`'s fields.  `unordered_map`s
become association lists (`page_table`) — nothing in the source iterates
them, so their order is irrelevant; `lru_iterator` is subsumed by list
positions in `lru_list`.  The disk is a partial map from page id to page
bytes (the source zero-fills on a short read, which no claim inspects).
Three ghost observation fields, which no operation reads, instrument the
state for the claims: `diskWrites` logs every `writePageToDisk` call,
`clock`/`touch` timestamp each `updateLRU` call (i.e. every time a frame is
returned by fetch/new or touched by a fetch hit). -/

def INVALID_PAGE_ID : Nat := 65535

/-- The raw bytes `Page::resetMemory` leaves in the buffer: zero everywhere
except the little-endian header `free_space_start = 6`, `free_space_end = 4096`. -/
def emptyPageData : Nat → Nat := fun i => if i = 2 then 6 else if i = 5 then 16 else 0

structure Frame where
  page_id : Nat
  pdata : Nat → Nat
  ppid : Nat
  pin_count : Int
  is_dirty : Bool

/-- A value-initialized `Frame` (what `frames.resize(pool_size)` produces):
zeroed `pin_count`/`is_dirty`, default-constructed `Page`, invalid ids. -/
def initFrame : Frame :=
  { page_id := INVALID_PAGE_ID, pdata := emptyPageData, ppid := INVALID_PAGE_ID,
    pin_count := 0, is_dirty := false }

structure BPState where
  pool_size : Nat
  frames : List Frame
  page_table : List (Nat × Nat)
  free_frames : List Nat
  lru_list : List Nat
  counter : Nat
  disk : Nat → Option (Nat → Nat)
  diskWrites : List Nat
  clock : Nat
  touch : Nat → Nat

def frameAt (s : BPState) (f : Nat) : Frame := s.frames.getD f initFrame

def setFrame (s : BPState) (f : Nat) (fr : Frame) : BPState :=
  { s with frames := s.frames.set f fr }

/-- `page_table.count(pid) > 0` / `page_table[pid]` combined. -/
def ptLookup : List (Nat × Nat) → Nat → Option Nat
  | [], _ => none
  | e :: rest, pid => if e.1 = pid then some e.2 else ptLookup rest pid

/-- `page_table.erase(pid)` (the key is unique in reachable states). -/
def ptErase (pt : List (Nat × Nat)) (pid : Nat) : List (Nat × Nat) :=
  pt.filter (fun e => e.1 != pid)

/-- `page_table[pid] = fid`: replace the entry when the key exists,
otherwise add one. -/
def ptInsert (pt : List (Nat × Nat)) (pid fid : Nat) : List (Nat × Nat) :=
  if (ptLookup pt pid).isSome then
    pt.map (fun e => if e.1 = pid then (pid, fid) else e)
  else pt ++ [(pid, fid)]

/-- `BufferPoolManager::writePageToDisk` (the model's file is always open,
so it always succeeds); also appends to the ghost write log. -/
def writePage (s : BPState) (pid : Nat) (bytes : Nat → Nat) : BPState :=
  { s with disk := fun q => if q = pid then some bytes else s.disk q,
           diskWrites := s.diskWrites ++ [pid] }

/-- `BufferPoolManager::readPageFromDisk`, as the bytes that end up in the
frame: the stored bytes when the page was written, else the reset buffer. -/
def readPageData (s : BPState) (pid : Nat) : Nat → Nat :=
  match s.disk pid with
  | some b => b
  | none => emptyPageData

/-- `BufferPoolManager::updateLRU`: move (or add) the frame to the tail.
Ghost: stamp the frame with the current clock. -/
def updateLRU (s : BPState) (f : Nat) : BPState :=
  { s with lru_list := s.lru_list.erase f ++ [f],
           touch := fun g => if g = f then s.clock else s.touch g,
           clock := s.clock + 1 }

/-- The victim-selection loop of `BufferPoolManager::evictPage`: the first
frame in `lru_list` order whose `pin_count == 0`. -/
def scanLRU (s : BPState) : List Nat → Option Nat
  | [] => none
  | f :: rest => if (frameAt s f).pin_count = 0 then some f else scanLRU s rest

/-- The state after `BufferPoolManager::evictPage` evicts frame `f`: write
back if dirty, drop from the LRU structures and from the page table, push
onto the free list, invalidate the frame's id.  Note the source never clears
`pin_count` or `is_dirty` of the evicted frame. -/
def evictState (s : BPState) (f : Nat) : BPState :=
  let fr := frameAt s f
  let s1 := if fr.is_dirty then writePage s fr.page_id fr.pdata else s
  let s2 := { s1 with lru_list := s1.lru_list.erase f,
                      page_table := ptErase s1.page_table fr.page_id,
                      free_frames := s1.free_frames ++ [f] }
  setFrame s2 f { fr with page_id := INVALID_PAGE_ID }

/-- `BufferPoolManager::evictPage`. -/
def evictPage (s : BPState) : Bool × BPState :=
  match scanLRU s s.lru_list with
  | none => (false, s)
  | some f => (true, evictState s f)

/-- `BufferPoolManager::fetchPage`, returning the frame index of the handle
(or `none` for `nullptr`). -/
def fetchPage (s : BPState) (pid : Nat) : Option Nat × BPState :=
  match ptLookup s.page_table pid with
  | some fid =>
    let fr := frameAt s fid
    let s1 := setFrame s fid { fr with pin_count := fr.pin_count + 1 }
    (some fid, updateLRU s1 fid)
  | none =>
    match (if s.free_frames.isEmpty then evictPage s else (true, s)) with
    | (false, s1) => (none, s1)
    | (true, s1) =>
      match s1.free_frames with
      | [] => (none, s1)
      | fid :: rest =>
        let s2 := { s1 with free_frames := rest }
        let s3 := setFrame s2 fid
          { page_id := pid, pdata := readPageData s2 pid, ppid := pid,
            pin_count := 1, is_dirty := false }
        let s4 := { s3 with page_table := ptInsert s3.page_table pid fid }
        (some fid, updateLRU s4 fid)

/-- `BufferPoolManager::newPage`, returning `(frame index, *page_id)`. -/
def newPage (s : BPState) : Option (Nat × Nat) × BPState :=
  match (if s.free_frames.isEmpty then evictPage s else (true, s)) with
  | (false, s1) => (none, s1)
  | (true, s1) =>
    match s1.free_frames with
    | [] => (none, s1)
    | fid :: rest =>
      let s2 := { s1 with free_frames := rest }
      let pid := s2.counter
      let s3 := { s2 with counter := (s2.counter + 1) % U16_MOD }
      let s4 := setFrame s3 fid
        { page_id := pid, pdata := emptyPageData, ppid := pid,
          pin_count := 1, is_dirty := true }
      let s5 := { s4 with page_table := ptInsert s4.page_table pid fid }
      (some (fid, pid), updateLRU s5 fid)

/-- `BufferPoolManager::unpinPage`. -/
def unpinPage (s : BPState) (pid : Nat) (is_dirty : Bool) : Bool × BPState :=
  match ptLookup s.page_table pid with
  | none => (false, s)
  | some fid =>
    let fr := frameAt s fid
    if fr.pin_count ≤ 0 then (false, s)
    else
      let fr1 := { fr with pin_count := fr.pin_count - 1 }
      (true, setFrame s fid (if is_dirty then { fr1 with is_dirty := true } else fr1))

/-- `BufferPoolManager::flushPage`. -/
def flushPage (s : BPState) (pid : Nat) : Bool × BPState :=
  match ptLookup s.page_table pid with
  | none => (false, s)
  | some fid =>
    let fr := frameAt s fid
    if fr.is_dirty then
      (true, setFrame (writePage s pid fr.pdata) fid { fr with is_dirty := false })
    else (true, s)

/-- `BufferPoolManager::deletePage`. -/
def deletePage (s : BPState) (pid : Nat) : Bool × BPState :=
  match ptLookup s.page_table pid with
  | none => (false, s)
  | some fid =>
    let fr := frameAt s fid
    if fr.pin_count = 0 then
      let s1 := if fr.is_dirty then writePage s pid fr.pdata else s
      let s2 := setFrame s1 fid
        { fr with page_id := INVALID_PAGE_ID, pin_count := 0, is_dirty := false }
      (true, { s2 with free_frames := s2.free_frames ++ [fid],
                       page_table := ptErase s2.page_table pid,
                       lru_list := s2.lru_list.erase fid })
    else (false, s)

/-- The body of the loop of `BufferPoolManager::flushAllDirtyPages` for one
frame index. -/
def flushFrameStep (st : BPState) (i : Nat) : BPState :=
  let fr := frameAt st i
  if fr.page_id ≠ INVALID_PAGE_ID ∧ fr.is_dirty = true then
    setFrame (writePage st fr.page_id fr.pdata) i { fr with is_dirty := false }
  else st

/-- `BufferPoolManager::flushAllDirtyPages`: walk the frames in index order,
write back and clear the dirty flag of every resident dirty frame. -/
def flushAllDirtyPages (s : BPState) : BPState :=
  (List.range s.frames.length).foldl flushFrameStep s

/-- The public operations of the pool, as invoked by an arbitrary caller. -/
inductive BPOp where
  | fetch (pid : Nat)
  | fresh
  | unpin (pid : Nat) (d : Bool)
  | flushp (pid : Nat)
  | del (pid : Nat)
  | flushAll
  deriving DecidableEq

def stepOp (s : BPState) : BPOp → BPState
  | .fetch pid => (fetchPage s pid).2
  | .fresh => (newPage s).2
  | .unpin pid d => (unpinPage s pid d).2
  | .flushp pid => (flushPage s pid).2
  | .del pid => (deletePage s pid).2
  | .flushAll => flushAllDirtyPages s

/-- The state after construction: `pool_size` value-initialized frames, the
free list `[0, pool_size)` in index order, an empty file, counter zero. -/
def initState (n : Nat) : BPState :=
  { pool_size := n, frames := List.replicate n initFrame,
    page_table := [], free_frames := List.range n, lru_list := [],
    counter := 0, disk := fun _ => none, diskWrites := [],
    clock := 0, touch := fun _ => 0 }

def runOps (n : Nat) (ops : List BPOp) : BPState := ops.foldl stepOp (initState n)

/-- A pool state arising from some sequence of public operations on a
freshly constructed pool of `n` frames. -/
def Reachable (n : Nat) (s : BPState) : Prop := ∃ ops, runOps n ops = s

def runUnpins (s : BPState) (pid : Nat) (bs : List Bool) : BPState :=
  bs.foldl (fun st b => (unpinPage st pid b).2) s

/-!
## Reachable-state invariants of the pool

`Inv` collects the structural facts that hold in every state reachable by
public operations: bounds and duplicate-freedom of the bookkeeping lists,
cleanliness of free frames, coherence of the page table, and the ghost fact
that `lru_list` is ordered by the last-touch timestamps. -/

structure Inv (s : BPState) : Prop where
  hlen : s.frames.length = s.pool_size
  free_lt : ∀ f ∈ s.free_frames, f < s.pool_size
  free_nodup : s.free_frames.Nodup
  free_clean : ∀ f ∈ s.free_frames,
    (frameAt s f).page_id = INVALID_PAGE_ID ∧ (frameAt s f).pin_count = 0 ∧
    (frameAt s f).is_dirty = false
  lru_lt : ∀ f ∈ s.lru_list, f < s.pool_size
  lru_nodup : s.lru_list.Nodup
  disj : ∀ f ∈ s.free_frames, f ∉ s.lru_list
  cover : ∀ f, f < s.pool_size → f ∈ s.free_frames ∨ f ∈ s.lru_list
  pt_lt : ∀ e ∈ s.page_table, e.2 < s.pool_size
  pt_not_free : ∀ e ∈ s.page_table, e.2 ∉ s.free_frames
  pt_pid : ∀ e ∈ s.page_table, (frameAt s e.2).page_id = e.1
  pt_keys : (s.page_table.map Prod.fst).Nodup
  sorted : s.lru_list.Pairwise (fun a b => s.touch a < s.touch b)
  touch_lt : ∀ f ∈ s.lru_list, s.touch f < s.clock


/-- What the frame-installation tail of `fetchPage`/`newPage` requires of the
intermediate state (after a possible eviction) whose free list is
`fid :: rest`.  This is `Inv` except that nothing is assumed about the
dirty flag or pin count of the frame `fid` about to be overwritten. -/
structure InstallPre (s : BPState) (fid : Nat) (rest : List Nat) : Prop where
  hlen : s.frames.length = s.pool_size
  hfree : s.free_frames = fid :: rest
  fid_lt : fid < s.pool_size
  fid_lru : fid ∉ s.lru_list
  fid_rest : fid ∉ rest
  rest_lt : ∀ f ∈ rest, f < s.pool_size
  rest_nodup : rest.Nodup
  rest_clean : ∀ f ∈ rest, (frameAt s f).page_id = INVALID_PAGE_ID ∧
    (frameAt s f).pin_count = 0 ∧ (frameAt s f).is_dirty = false
  rest_lru : ∀ f ∈ rest, f ∉ s.lru_list
  lru_lt : ∀ f ∈ s.lru_list, f < s.pool_size
  lru_nodup : s.lru_list.Nodup
  cover : ∀ f, f < s.pool_size → f ∈ s.free_frames ∨ f ∈ s.lru_list
  pt_lt : ∀ e ∈ s.page_table, e.2 < s.pool_size
  pt_not_free : ∀ e ∈ s.page_table, e.2 ∉ s.free_frames
  pt_pid : ∀ e ∈ s.page_table, (frameAt s e.2).page_id = e.1
  pt_keys : (s.page_table.map Prod.fst).Nodup
  sorted : s.lru_list.Pairwise (fun a b => s.touch a < s.touch b)
  touch_lt : ∀ f ∈ s.lru_list, s.touch f < s.clock

/-- A reachable pool of two frames with both pages created, unpinned and
dirty: the free list is empty, `lru_list = [0, 1]`, both pin counts are 0. -/
def c5S : BPState :=
  runOps 2 [BPOp.fresh, BPOp.unpin 0 true, BPOp.fresh, BPOp.unpin 1 true]

theorem getD_set_self {α : Type} (l : List α) (i : Nat) (a d : α) (h : i < l.length) :
    (l.set i a).getD i d = a := by
  induction l generalizing i with
  | nil => simp at h
  | cons x xs ih =>
    cases i with
    | zero => rfl
    | succ n =>
      have hn : n < xs.length := by simpa using h
      simpa using ih n hn

theorem getD_set_ne {α : Type} (l : List α) (i j : Nat) (a d : α) (h : j ≠ i) :
    (l.set i a).getD j d = l.getD j d := by
  induction l generalizing i j with
  | nil => rfl
  | cons x xs ih =>
    cases i with
    | zero =>
      cases j with
      | zero => exact absurd rfl h
      | succ m => rfl
    | succ n =>
      cases j with
      | zero => rfl
      | succ m =>
        simpa using ih n m (fun hh => h (by rw [hh]))

theorem readBytes_writeBytes (h : Nat → Nat) (off : Nat) (data : List Nat) (L : Nat)
    (hle : data.length ≤ L) :
    readBytes (writeBytes h off data) off L
      = data ++ readBytes h (off + data.length) (L - data.length) := by
  apply List.ext_getElem
  · simp [readBytes]; omega
  · intro k hk1 hk2
    have hkL : k < L := by simpa [readBytes] using hk1
    by_cases hkd : k < data.length
    · rw [List.getElem_append_left (by simpa using hkd)]
      simp only [readBytes, List.getElem_map, List.getElem_range, writeBytes]
      rw [if_pos (by omega)]
      have : off + k - off = k := by omega
      rw [this, List.getD_eq_getElem?_getD, List.getElem?_eq_getElem hkd]
      rfl
    · rw [List.getElem_append_right (by simpa using hkd)]
      simp only [readBytes, List.getElem_map, List.getElem_range, writeBytes]
      rw [if_neg (by omega)]
      congr 1
      omega

/-- C8: `delete_record(slot_num)` returns false exactly when the slot is out
of range or already tombstoned; on success it only sets the tombstone flag of
that slot, leaving the record bytes, every other slot entry, `num_of_slots`,
`free_space_start` and `free_space_end` unchanged, so slot indices of the
other records are stable. -/
theorem deleteRecord_spec (p : PageState) (i : Nat) :
    ((deleteRecord p i).1 = false ↔
      p.slots.length ≤ i ∨ (p.slots.getD i noSlot).isDeleted = true)
    ∧ (∀ s, i < p.slots.length → p.slots.getD i noSlot = s → s.isDeleted = false →
        (deleteRecord p i).1 = true
        ∧ (deleteRecord p i).2.slots = p.slots.set i { s with isDeleted := true }
        ∧ (deleteRecord p i).2.slots.length = p.slots.length
        ∧ (deleteRecord p i).2.heap = p.heap
        ∧ (deleteRecord p i).2.free_space_start = p.free_space_start
        ∧ (deleteRecord p i).2.free_space_end = p.free_space_end
        ∧ ∀ j, j ≠ i → (deleteRecord p i).2.slots.getD j noSlot = p.slots.getD j noSlot) := by
  constructor
  · by_cases h1 : p.slots.length ≤ i
    · simp [deleteRecord, h1]
    · by_cases h2 : (p.slots.getD i noSlot).isDeleted = true <;>
        simp [deleteRecord, h1, h2, -List.getD_eq_getElem?_getD]
  · intro s hi hs hlive
    have h1 : ¬ p.slots.length ≤ i := by omega
    refine ⟨?_, ?_, ?_, ?_, ?_, ?_, ?_⟩ <;>
      simp [deleteRecord, h1, hs, hlive, -List.getD_eq_getElem?_getD]
    intro j hj
    exact getD_set_ne _ _ _ _ _ hj

/-- C8 witness: deleting the single live slot of a one-record page. -/
theorem deleteRecord_spec_witness :
    (deleteRecord (insertRecord emptyPage [5]).2 0).1 = true :=
  ((deleteRecord_spec (insertRecord emptyPage [5]).2 0).2
    ⟨4095, 1, false⟩ (by decide) (by decide) (by decide)).1

/-- C10: a successful shrinking `update_record` (strictly smaller
`new_length` on a live slot) returns true, leaves the whole slot directory
and both header offsets unchanged, overwrites only the first `new_length`
bytes of the record, and a subsequent `get_record` returns a view whose
bytes beyond the first `new_length` are the stale trailing bytes of the
previous contents. -/
theorem updateRecord_shrink_spec (p : PageState) (i : Nat) (s : Slot) (data : List Nat)
    (hi : i < p.slots.length) (hs : p.slots.getD i noSlot = s)
    (hlive : s.isDeleted = false) (hlt : data.length < s.length) :
    (updateRecord p i data).1 = true
    ∧ (updateRecord p i data).2.slots = p.slots
    ∧ (updateRecord p i data).2.free_space_start = p.free_space_start
    ∧ (updateRecord p i data).2.free_space_end = p.free_space_end
    ∧ getRecordBytes (updateRecord p i data).2 i
        = some (data ++ readBytes p.heap (s.offset + data.length) (s.length - data.length))
    ∧ ∀ a, a < s.offset ∨ s.offset + data.length ≤ a →
        (updateRecord p i data).2.heap a = p.heap a := by
  have h1 : ¬ p.slots.length ≤ i := by omega
  have hle : data.length ≤ s.length := Nat.le_of_lt hlt
  have hres : updateRecord p i data
      = (true, { p with heap := writeBytes p.heap s.offset data }) := by
    simp [updateRecord, h1, hs, hlive, hle, -List.getD_eq_getElem?_getD]
  refine ⟨by rw [hres], by rw [hres], by rw [hres], by rw [hres], ?_, ?_⟩
  · rw [hres]
    simp only [getRecordBytes]
    rw [if_pos hi]
    simp only [hs, hlive]
    rw [if_neg (by simp [hlive]), readBytes_writeBytes _ _ _ _ hle]
  · intro a ha
    rw [hres]
    simp only [writeBytes]
    rw [if_neg (by omega)]

/-- C10 witness: shrink a 4-byte record to 2 bytes. -/
theorem updateRecord_shrink_spec_witness :
    getRecordBytes (updateRecord (insertRecord emptyPage [9, 9, 9, 9]).2 0 [7, 7]).2 0
      = some ([7, 7] ++ readBytes (insertRecord emptyPage [9, 9, 9, 9]).2.heap (4092 + 2) (4 - 2)) :=
  (updateRecord_shrink_spec (insertRecord emptyPage [9, 9, 9, 9]).2 0
    ⟨4092, 4, false⟩ [7, 7] (by decide) (by decide) (by decide) (by decide)).2.2.2.2.1

/-- C1 (refuted): starting from a fresh page, `insert_record` of 4 bytes
followed by a growing `update_record` to 6 bytes succeeds, yet leaves
`free_space_start = 12` while the directory now has 2 slots, so invariant 2
(`free_space_start = sizeof(header) + num_of_slots * sizeof(slot)` = 18)
does not hold between operations: the grow path never advances
`free_space_start`. -/
theorem updateRecord_grow_breaks_inv2 :
    ((updateRecord (insertRecord emptyPage [1, 1, 1, 1]).2 0 [3, 3, 3, 3, 3, 3]).1 = true)
    ∧ (updateRecord (insertRecord emptyPage [1, 1, 1, 1]).2 0 [3, 3, 3, 3, 3, 3]).2.free_space_start = 12
    ∧ (updateRecord (insertRecord emptyPage [1, 1, 1, 1]).2 0 [3, 3, 3, 3, 3, 3]).2.slots.length = 2
    ∧ HEADER_SIZE + 2 * SLOT_SIZE = 18
    ∧ ¬ PageInv (updateRecord (insertRecord emptyPage [1, 1, 1, 1]).2 0 [3, 3, 3, 3, 3, 3]).2 := by
  decide

/-- C2 (refuted): on an invariant-satisfying page with `free_space_end = 30`,
inserting a 40-byte record must fail by the claim's integer test
(`6 + 2*6 = 18 ≥ 30 - 40`), but the source's `uint16_t` subtraction wraps to
`65526`, the guard passes, the call returns true, and the new slot's bytes
lie entirely outside the 4096-byte buffer. -/
theorem insertRecord_wraparound_overflow :
    PageInv nearlyFullPage
    ∧ ((HEADER_SIZE : Int) + (1 + 1) * SLOT_SIZE ≥ (30 : Int) - 40)
    ∧ (insertRecord nearlyFullPage (List.replicate 40 7)).1 = true
    ∧ (insertRecord nearlyFullPage (List.replicate 40 7)).2.slots.getD 1 noSlot
        = ⟨65526, 40, false⟩
    ∧ PAGE_SIZE < 65526 + 40 := by
  decide

/-- C3 (refuted): on `fragmentedPage` and a 10-byte record,
`l + sizeof(slot) = 16 ≤ total_free_space = 10 + 8 = 18`, so the claim
requires `insert_record_smart` to succeed; the source computes total free
space as `free_space_end - free_space_end` (zero) plus tombstone lengths
`= 8 < 16` and fails without compacting. -/
theorem insertRecordSmart_rejects_feasible_insert :
    PageInv fragmentedPage
    ∧ 10 + SLOT_SIZE ≤ specTotalFreeSpace fragmentedPage
    ∧ (insertRecordSmart fragmentedPage [3, 3, 3, 3, 3, 3, 3, 3, 3, 3]).1 = false
    ∧ getTotalFreeSpace fragmentedPage = 8 := by
  decide

/-- C4 (refuted): `compact_page` on `overwritePage` loses the 6-byte record.
The directory-rebuild loop copies survivors through pointers into the
directory it is overwriting: writing survivor slot 1 into position 0
clobbers the entry of survivor slot 0 before it is read, so the final
directory lists the 4-byte record twice and the multiset of live record
byte strings is not preserved. -/
theorem compactPage_loses_live_record :
    PageInv overwritePage
    ∧ (compactPage overwritePage).slots = [⟨4092, 4, false⟩, ⟨4092, 4, false⟩]
    ∧ liveRecords overwritePage = [[3, 3, 3, 3, 3, 3], [2, 2, 2, 2]]
    ∧ liveRecords (compactPage overwritePage) = [[2, 2, 2, 2], [2, 2, 2, 2]]
    ∧ ¬ ((liveRecords (compactPage overwritePage) : Multiset (List Nat))
          = (liveRecords overwritePage : Multiset (List Nat))) := by
  decide

theorem getD_of_length_le {α : Type} (l : List α) (i : Nat) (d : α)
    (h : l.length ≤ i) : l.getD i d = d := by
  simp [List.getD_eq_getElem?_getD, List.getElem?_eq_none h]

theorem frameAt_setFrame_self (s : BPState) (f : Nat) (fr : Frame)
    (h : f < s.frames.length) : frameAt (setFrame s f fr) f = fr :=
  getD_set_self _ _ _ _ h

theorem frameAt_setFrame_ne (s : BPState) (f g : Nat) (fr : Frame)
    (h : g ≠ f) : frameAt (setFrame s f fr) g = frameAt s g :=
  getD_set_ne _ _ _ _ _ h

theorem scanLRU_eq_none (s : BPState) (l : List Nat)
    (h : ∀ f ∈ l, (frameAt s f).pin_count ≠ 0) : scanLRU s l = none := by
  induction l with
  | nil => rfl
  | cons f rest ih =>
    simp only [scanLRU, if_neg (h f (by simp))]
    exact ih (fun g hg => h g (by simp [hg]))

/-- C9: a `fetch_page` miss or a `new_page` when the free list is empty and
every frame in `lru_list` is pinned returns null and leaves the entire pool
state — frames, page table, free list, LRU structures, counter, disk —
untouched, and performs no disk write. -/
theorem failed_allocation_is_atomic (s : BPState) (pid : Nat)
    (hmiss : ptLookup s.page_table pid = none)
    (hfree : s.free_frames = [])
    (hpin : ∀ f ∈ s.lru_list, 0 < (frameAt s f).pin_count) :
    fetchPage s pid = (none, s)
    ∧ newPage s = (none, s)
    ∧ (fetchPage s pid).2.diskWrites = s.diskWrites
    ∧ (newPage s).2.diskWrites = s.diskWrites := by
  have hscan : scanLRU s s.lru_list = none :=
    scanLRU_eq_none s _ (fun f hf => by have := hpin f hf; omega)
  have hevict : evictPage s = (false, s) := by simp [evictPage, hscan]
  have hf : fetchPage s pid = (none, s) := by
    simp [fetchPage, hmiss, hfree, hevict]
  have hn : newPage s = (none, s) := by
    simp [newPage, hfree, hevict]
  exact ⟨hf, hn, by rw [hf], by rw [hn]⟩

/-- C9 witness: a pool of one frame holding a freshly created pinned page
rejects a fetch of an absent page and a new-page request without any state
change. -/
theorem failed_allocation_is_atomic_witness :
    fetchPage (runOps 1 [BPOp.fresh]) 5 = (none, runOps 1 [BPOp.fresh])
    ∧ newPage (runOps 1 [BPOp.fresh]) = (none, runOps 1 [BPOp.fresh]) := by
  have h := failed_allocation_is_atomic (runOps 1 [BPOp.fresh]) 5
    (by decide) (by decide)
    (by intro f hf; fin_cases hf; decide)
  exact ⟨h.1, h.2.1⟩

theorem unpin_success_state (s : BPState) (pid : Nat) (d : Bool) (fid : Nat)
    (hl : ptLookup s.page_table pid = some fid)
    (hpin : 0 < (frameAt s fid).pin_count) :
    unpinPage s pid d = (true, setFrame s fid
      { frameAt s fid with
        pin_count := (frameAt s fid).pin_count - 1
        is_dirty := (frameAt s fid).is_dirty || d }) := by
  simp only [unpinPage, hl]
  rw [if_neg (by omega)]
  cases d <;> simp

theorem runUnpins_frame (pid : Nat) (bs : List Bool) :
    ∀ (s : BPState) (fid : Nat), ptLookup s.page_table pid = some fid →
    (bs.length : Int) ≤ (frameAt s fid).pin_count →
    (runUnpins s pid bs).page_table = s.page_table
    ∧ (frameAt (runUnpins s pid bs) fid).pin_count
        = (frameAt s fid).pin_count - bs.length
    ∧ (frameAt (runUnpins s pid bs) fid).is_dirty
        = ((frameAt s fid).is_dirty || bs.any id) := by
  induction bs with
  | nil => intro s fid hl hle; simp [runUnpins]
  | cons b rest ih =>
    intro s fid hl hle
    have hcast : ((b :: rest).length : Int) = (rest.length : Int) + 1 := by
      push_cast [List.length_cons]; ring
    have hpin : 0 < (frameAt s fid).pin_count := by
      rw [hcast] at hle; omega
    have hfl : fid < s.frames.length := by
      by_contra hge
      have : frameAt s fid = initFrame :=
        getD_of_length_le _ _ _ (by omega)
      rw [this] at hpin
      simp [initFrame] at hpin
    have hstep : (unpinPage s pid b).2 = setFrame s fid
        { frameAt s fid with
          pin_count := (frameAt s fid).pin_count - 1
          is_dirty := (frameAt s fid).is_dirty || b } := by
      rw [unpin_success_state s pid b fid hl hpin]
    have hrun : runUnpins s pid (b :: rest)
        = runUnpins (unpinPage s pid b).2 pid rest := rfl
    rw [hrun, hstep]
    have h2 : frameAt (setFrame s fid
        { frameAt s fid with
          pin_count := (frameAt s fid).pin_count - 1
          is_dirty := (frameAt s fid).is_dirty || b }) fid
        = { frameAt s fid with
            pin_count := (frameAt s fid).pin_count - 1
            is_dirty := (frameAt s fid).is_dirty || b } :=
      frameAt_setFrame_self _ _ _ hfl
    obtain ⟨hpt, hpc, hd⟩ := ih (setFrame s fid
        { frameAt s fid with
          pin_count := (frameAt s fid).pin_count - 1
          is_dirty := (frameAt s fid).is_dirty || b }) fid
      (show ptLookup _ pid = some fid from hl)
      (by rw [h2]; dsimp only; rw [hcast] at hle; omega)
    refine ⟨?_, ?_, ?_⟩
    · rw [hpt]; rfl
    · rw [hpc, h2]; dsimp only; rw [hcast]; omega
    · rw [hd, h2]; dsimp only; simp [Bool.or_assoc]

/-- C7: `unpin_page(pid, d)` fails exactly when `pid` is not resident or its
frame's pin count is not positive; on success it decrements the pin count
and ors `d` into the sticky dirty flag; over any sequence of successful
unpins the dirty bit is the disjunction of the passed flags with its prior
value; a successful `flush_page` then clears it. -/
theorem unpinPage_spec (s : BPState) (pid : Nat) (d : Bool) :
    ((unpinPage s pid d).1 = false ↔
      ptLookup s.page_table pid = none ∨
      ∃ fid, ptLookup s.page_table pid = some fid ∧ (frameAt s fid).pin_count ≤ 0)
    ∧ (∀ fid, ptLookup s.page_table pid = some fid →
        0 < (frameAt s fid).pin_count →
        unpinPage s pid d = (true, setFrame s fid
          { frameAt s fid with
            pin_count := (frameAt s fid).pin_count - 1
            is_dirty := (frameAt s fid).is_dirty || d }))
    ∧ (∀ fid (bs : List Bool), ptLookup s.page_table pid = some fid →
        (bs.length : Int) ≤ (frameAt s fid).pin_count →
        (frameAt (runUnpins s pid bs) fid).is_dirty
          = ((frameAt s fid).is_dirty || bs.any id))
    ∧ (∀ fid, ptLookup s.page_table pid = some fid →
        (flushPage s pid).1 = true
        ∧ (frameAt (flushPage s pid).2 fid).is_dirty = false) := by
  refine ⟨?_, ?_, ?_, ?_⟩
  · match hl : ptLookup s.page_table pid with
    | none => simp [unpinPage, hl]
    | some fid =>
      by_cases hpin : (frameAt s fid).pin_count ≤ 0
      · simp only [unpinPage, hl]
        rw [if_pos hpin]
        simp [hl, hpin]
      · rw [unpin_success_state s pid d fid hl (by omega)]
        simp [hl]
        omega
  · intro fid hl hpin
    exact unpin_success_state s pid d fid hl hpin
  · intro fid bs hl hle
    exact (runUnpins_frame pid bs s fid hl hle).2.2
  · intro fid hl
    simp only [flushPage, hl]
    by_cases hd : (frameAt s fid).is_dirty = true
    · rw [if_pos hd]
      refine ⟨rfl, ?_⟩
      by_cases hfl : fid < s.frames.length
      · have : frameAt (setFrame (writePage s pid (frameAt s fid).pdata) fid
            { frameAt s fid with is_dirty := false }) fid
            = { frameAt s fid with is_dirty := false } :=
          frameAt_setFrame_self _ _ _ hfl
        simp [this]
      · have hwf : (writePage s pid (frameAt s fid).pdata).frames = s.frames := rfl
        have h1 : frameAt (setFrame (writePage s pid (frameAt s fid).pdata) fid
            { frameAt s fid with is_dirty := false }) fid = initFrame := by
          show ((writePage s pid (frameAt s fid).pdata).frames.set fid
            { frameAt s fid with is_dirty := false }).getD fid initFrame = initFrame
          rw [hwf, List.set_eq_of_length_le (by omega)]
          exact getD_of_length_le _ _ _ (by omega)
        rw [h1]
        rfl
    · rw [if_neg hd]
      simp at hd
      exact ⟨rfl, hd⟩

/-- C7 witness: a freshly created page (pin count 1, dirty) accepts one
clean unpin; over the sequence `[false, true, false]` started from three
pins the dirty bit is their disjunction with the prior value. -/
theorem unpinPage_spec_witness :
    unpinPage (runOps 2 [BPOp.fresh]) 0 false
      = (true, setFrame (runOps 2 [BPOp.fresh]) 0
          { frameAt (runOps 2 [BPOp.fresh]) 0 with
            pin_count := (frameAt (runOps 2 [BPOp.fresh]) 0).pin_count - 1
            is_dirty := (frameAt (runOps 2 [BPOp.fresh]) 0).is_dirty || false }) :=
  (unpinPage_spec (runOps 2 [BPOp.fresh]) 0 false).2.1 0 (by decide) (by decide)

theorem frameAt_writePage (s : BPState) (p : Nat) (b : Nat → Nat) (f : Nat) :
    frameAt (writePage s p b) f = frameAt s f := rfl

theorem ptLookup_mem {pt : List (Nat × Nat)} {pid fid : Nat}
    (h : ptLookup pt pid = some fid) : (pid, fid) ∈ pt := by
  induction pt with
  | nil => simp [ptLookup] at h
  | cons e rest ih =>
    by_cases he : e.1 = pid
    · simp only [ptLookup, if_pos he] at h
      cases h
      have he2 : (pid, e.2) = e := by
        cases e with
        | mk a b => simp_all
      rw [he2]
      exact List.mem_cons_self _ _
    · simp only [ptLookup, if_neg he] at h
      exact List.mem_cons_of_mem _ (ih h)

theorem ptLookup_isSome_of_mem {pt : List (Nat × Nat)} {e : Nat × Nat}
    (he : e ∈ pt) : (ptLookup pt e.1).isSome := by
  induction pt with
  | nil => simp at he
  | cons x rest ih =>
    rcases List.mem_cons.mp he with h | h
    · subst h; simp [ptLookup]
    · by_cases hx : x.1 = e.1
      · simp [ptLookup, hx]
      · simpa [ptLookup, hx] using ih h

theorem ptLookup_none_not_key {pt : List (Nat × Nat)} {pid : Nat}
    (h : ptLookup pt pid = none) : ∀ e ∈ pt, e.1 ≠ pid := by
  intro e he heq
  have := ptLookup_isSome_of_mem he
  rw [heq, h] at this
  simp at this

theorem ptErase_mem {pt : List (Nat × Nat)} {k : Nat} {e : Nat × Nat}
    (he : e ∈ ptErase pt k) : e ∈ pt ∧ e.1 ≠ k := by
  have := List.mem_filter.mp he
  refine ⟨this.1, ?_⟩
  simpa using this.2

theorem ptErase_keys_sublist (pt : List (Nat × Nat)) (k : Nat) :
    ((ptErase pt k).map Prod.fst).Sublist (pt.map Prod.fst) :=
  (List.filter_sublist _).map _

theorem ptInsert_mem {pt : List (Nat × Nat)} {k v : Nat} {e : Nat × Nat}
    (he : e ∈ ptInsert pt k v) : e = (k, v) ∨ (e ∈ pt ∧ e.1 ≠ k) := by
  unfold ptInsert at he
  by_cases hsome : (ptLookup pt k).isSome = true
  · rw [if_pos hsome] at he
    obtain ⟨a, ha, hae⟩ := List.mem_map.mp he
    by_cases hak : a.1 = k
    · rw [if_pos hak] at hae
      exact Or.inl hae.symm
    · rw [if_neg hak] at hae
      subst hae
      exact Or.inr ⟨ha, hak⟩
  · rw [if_neg hsome] at he
    rcases List.mem_append.mp he with h | h
    · right
      refine ⟨h, fun hk => hsome ?_⟩
      exact hk ▸ ptLookup_isSome_of_mem h
    · left; simpa using h

theorem ptInsert_keys_nodup {pt : List (Nat × Nat)} {k v : Nat}
    (h : (pt.map Prod.fst).Nodup) : ((ptInsert pt k v).map Prod.fst).Nodup := by
  unfold ptInsert
  by_cases hsome : (ptLookup pt k).isSome = true
  · rw [if_pos hsome]
    have : (pt.map (fun e => if e.1 = k then (k, v) else e)).map Prod.fst
        = pt.map Prod.fst := by
      rw [List.map_map]
      apply List.map_congr_left
      intro a _
      by_cases hak : a.1 = k
      · simp [hak]
      · simp [hak]
    rw [this]
    exact h
  · rw [if_neg hsome, List.map_append]
    rw [List.nodup_append]
    refine ⟨h, by simp, ?_⟩
    intro a ha hb
    have hak : a = k := by simpa using hb
    obtain ⟨e, he, hae⟩ := List.mem_map.mp ha
    exact hsome (by rw [← hak, ← hae]; exact ptLookup_isSome_of_mem he)

theorem inv_writePage {s : BPState} (h : Inv s) (pid : Nat) (b : Nat → Nat) :
    Inv (writePage s pid b) :=
  ⟨h.hlen, h.free_lt, h.free_nodup, h.free_clean, h.lru_lt, h.lru_nodup,
    h.disj, h.cover, h.pt_lt, h.pt_not_free, h.pt_pid, h.pt_keys, h.sorted,
    h.touch_lt⟩

theorem inv_ite_writePage {s : BPState} (h : Inv s) (c : Prop) [Decidable c]
    (pid : Nat) (b : Nat → Nat) :
    Inv (if c then writePage s pid b else s) := by
  split
  · exact inv_writePage h pid b
  · exact h

/-- Replacing the frame of a non-free slot by one with the same `page_id`
preserves the invariant. -/
theorem inv_update_resident {s : BPState} (h : Inv s) (fid : Nat) (fr' : Frame)
    (hnotfree : fid ∉ s.free_frames)
    (hpid : fr'.page_id = (frameAt s fid).page_id) :
    Inv (setFrame s fid fr') := by
  have hne : ∀ g, g ≠ fid → frameAt (setFrame s fid fr') g = frameAt s g :=
    fun g hg => frameAt_setFrame_ne s fid g fr' hg
  refine ⟨?_, h.free_lt, h.free_nodup, ?_, h.lru_lt, h.lru_nodup, h.disj,
    h.cover, h.pt_lt, h.pt_not_free, ?_, h.pt_keys, h.sorted, h.touch_lt⟩
  · show (s.frames.set fid fr').length = s.pool_size
    rw [List.length_set]
    exact h.hlen
  · intro f hf
    rw [hne f (fun hf' => hnotfree (hf' ▸ hf))]
    exact h.free_clean f hf
  · intro e he
    by_cases hef : e.2 = fid
    · by_cases hlt : fid < s.frames.length
      · rw [hef, frameAt_setFrame_self s fid fr' hlt, hpid, ← hef]
        exact h.pt_pid e he
      · rw [hef]
        show ((s.frames.set fid fr').getD fid initFrame).page_id = e.1
        rw [List.set_eq_of_length_le (by omega)]
        rw [← hef]
        exact h.pt_pid e he
    · rw [hne e.2 hef]
      exact h.pt_pid e he

/-- Touching a non-free in-range frame preserves the invariant. -/
theorem inv_updateLRU {s : BPState} (h : Inv s) (fid : Nat)
    (hlt : fid < s.pool_size) (hnotfree : fid ∉ s.free_frames) :
    Inv (updateLRU s fid) := by
  have herase : List.Sublist (s.lru_list.erase fid) s.lru_list :=
    List.erase_sublist fid s.lru_list
  have hmem_er : ∀ g ∈ s.lru_list.erase fid, g ∈ s.lru_list :=
    fun g hg => List.mem_of_mem_erase hg
  have hfid_not_er : fid ∉ s.lru_list.erase fid := by
    intro hmem
    exact ((h.lru_nodup.mem_erase_iff).mp hmem).1 rfl
  refine ⟨h.hlen, h.free_lt, h.free_nodup, h.free_clean, ?_, ?_, ?_, ?_,
    h.pt_lt, h.pt_not_free, h.pt_pid, h.pt_keys, ?_, ?_⟩
  · show ∀ f ∈ s.lru_list.erase fid ++ [fid], f < s.pool_size
    intro f hf
    rcases List.mem_append.mp hf with hf | hf
    · exact h.lru_lt f (hmem_er f hf)
    · rw [List.mem_singleton.mp hf]; exact hlt
  · show (s.lru_list.erase fid ++ [fid]).Nodup
    rw [List.nodup_append]
    refine ⟨h.lru_nodup.erase fid, by simp, ?_⟩
    intro a ha hb
    rw [List.mem_singleton.mp hb] at ha
    exact hfid_not_er ha
  · show ∀ f ∈ s.free_frames, f ∉ s.lru_list.erase fid ++ [fid]
    intro f hf
    intro hmem
    rcases List.mem_append.mp hmem with hm | hm
    · exact h.disj f hf (hmem_er f hm)
    · rw [List.mem_singleton.mp hm] at hf
      exact hnotfree hf
  · show ∀ f, f < s.pool_size → f ∈ s.free_frames ∨ f ∈ s.lru_list.erase fid ++ [fid]
    intro f hflt
    rcases h.cover f hflt with hf | hf
    · exact Or.inl hf
    · right
      by_cases hffid : f = fid
      · rw [hffid]; exact List.mem_append.mpr (Or.inr (by simp))
      · exact List.mem_append.mpr (Or.inl ((List.mem_erase_of_ne hffid).mpr hf))
  · show (s.lru_list.erase fid ++ [fid]).Pairwise
      (fun a b => (if a = fid then s.clock else s.touch a)
        < (if b = fid then s.clock else s.touch b))
    rw [List.pairwise_append]
    refine ⟨?_, by simp, ?_⟩
    · have base : (s.lru_list.erase fid).Pairwise (fun a b => s.touch a < s.touch b) :=
        h.sorted.sublist herase
      apply base.imp_of_mem
      intro a b ha hb hr
      have hafid : a ≠ fid := fun hh => hfid_not_er (hh ▸ ha)
      have hbfid : b ≠ fid := fun hh => hfid_not_er (hh ▸ hb)
      rw [if_neg hafid, if_neg hbfid]
      exact hr
    · intro a ha b hb
      rw [List.mem_singleton.mp hb]
      have hafid : a ≠ fid := fun hh => hfid_not_er (hh ▸ ha)
      rw [if_neg hafid, if_pos rfl]
      exact h.touch_lt a (hmem_er a ha)
  · intro f hf
    show (if f = fid then s.clock else s.touch f) < s.clock + 1
    by_cases hffid : f = fid
    · rw [if_pos hffid]; omega
    · rw [if_neg hffid]
      rcases List.mem_append.mp hf with hm | hm
      · have := h.touch_lt f (hmem_er f hm)
        omega
      · exact absurd (List.mem_singleton.mp hm) hffid

theorem scanLRU_some {s : BPState} {l : List Nat} {f : Nat}
    (h : scanLRU s l = some f) : f ∈ l ∧ (frameAt s f).pin_count = 0 := by
  induction l with
  | nil => simp [scanLRU] at h
  | cons g rest ih =>
    by_cases hg : (frameAt s g).pin_count = 0
    · simp only [scanLRU, if_pos hg] at h
      cases h
      exact ⟨by simp, hg⟩
    · simp only [scanLRU, if_neg hg] at h
      obtain ⟨hm, hp⟩ := ih h
      exact ⟨List.mem_cons_of_mem _ hm, hp⟩

theorem evictState_free (s : BPState) (f : Nat) :
    (evictState s f).free_frames = s.free_frames ++ [f] := by
  cases hd : (frameAt s f).is_dirty <;> simp [evictState, setFrame, writePage, hd]

theorem evictState_lru (s : BPState) (f : Nat) :
    (evictState s f).lru_list = s.lru_list.erase f := by
  cases hd : (frameAt s f).is_dirty <;> simp [evictState, setFrame, writePage, hd]

theorem evictState_pt (s : BPState) (f : Nat) :
    (evictState s f).page_table = ptErase s.page_table (frameAt s f).page_id := by
  cases hd : (frameAt s f).is_dirty <;> simp [evictState, setFrame, writePage, hd]

theorem evictState_frames (s : BPState) (f : Nat) :
    (evictState s f).frames
      = s.frames.set f { frameAt s f with page_id := INVALID_PAGE_ID } := by
  cases hd : (frameAt s f).is_dirty <;> simp [evictState, setFrame, writePage, hd]

theorem evictState_pool (s : BPState) (f : Nat) :
    (evictState s f).pool_size = s.pool_size := by
  cases hd : (frameAt s f).is_dirty <;> simp [evictState, setFrame, writePage, hd]

theorem evictState_clock (s : BPState) (f : Nat) :
    (evictState s f).clock = s.clock := by
  cases hd : (frameAt s f).is_dirty <;> simp [evictState, setFrame, writePage, hd]

theorem evictState_touch (s : BPState) (f : Nat) :
    (evictState s f).touch = s.touch := by
  cases hd : (frameAt s f).is_dirty <;> simp [evictState, setFrame, writePage, hd]

theorem installPre_of_inv {s : BPState} (h : Inv s) {fid : Nat} {rest : List Nat}
    (hfree : s.free_frames = fid :: rest) : InstallPre s fid rest := by
  have hfid_mem : fid ∈ s.free_frames := by rw [hfree]; simp
  have hrest_mem : ∀ f ∈ rest, f ∈ s.free_frames := by
    intro f hf; rw [hfree]; exact List.mem_cons_of_mem _ hf
  have hnodup := h.free_nodup
  rw [hfree] at hnodup
  exact
    { hlen := h.hlen
      hfree := hfree
      fid_lt := h.free_lt fid hfid_mem
      fid_lru := h.disj fid hfid_mem
      fid_rest := (List.nodup_cons.mp hnodup).1
      rest_lt := fun f hf => h.free_lt f (hrest_mem f hf)
      rest_nodup := (List.nodup_cons.mp hnodup).2
      rest_clean := fun f hf => h.free_clean f (hrest_mem f hf)
      rest_lru := fun f hf => h.disj f (hrest_mem f hf)
      lru_lt := h.lru_lt
      lru_nodup := h.lru_nodup
      cover := h.cover
      pt_lt := h.pt_lt
      pt_not_free := h.pt_not_free
      pt_pid := h.pt_pid
      pt_keys := h.pt_keys
      sorted := h.sorted
      touch_lt := h.touch_lt }

theorem installPre_of_evict {s : BPState} (h : Inv s) {v : Nat}
    (hfree : s.free_frames = [])
    (hscan : scanLRU s s.lru_list = some v) : InstallPre (evictState s v) v [] := by
  obtain ⟨hvl, _⟩ := scanLRU_some hscan
  have hvlt : v < s.pool_size := h.lru_lt v hvl
  have hvframes : v < s.frames.length := by rw [h.hlen]; exact hvlt
  have hv_not_er : v ∉ s.lru_list.erase v := by
    intro hmem
    exact ((h.lru_nodup.mem_erase_iff).mp hmem).1 rfl
  have hframes : ∀ g, g ≠ v → frameAt (evictState s v) g = frameAt s g := by
    intro g hg
    show (evictState s v).frames.getD g initFrame = frameAt s g
    rw [evictState_frames]
    exact getD_set_ne _ _ _ _ _ hg
  have hvpid : ∀ e ∈ s.page_table, e.2 = v → e.1 = (frameAt s v).page_id := by
    intro e he hev
    rw [← hev]
    exact (h.pt_pid e he).symm
  refine
    { hlen := ?_
      hfree := by rw [evictState_free, hfree]; rfl
      fid_lt := by rw [evictState_pool]; exact hvlt
      fid_lru := by rw [evictState_lru]; exact hv_not_er
      fid_rest := by simp
      rest_lt := by simp
      rest_nodup := by simp
      rest_clean := by simp
      rest_lru := by simp
      lru_lt := ?_
      lru_nodup := ?_
      cover := ?_
      pt_lt := ?_
      pt_not_free := ?_
      pt_pid := ?_
      pt_keys := ?_
      sorted := ?_
      touch_lt := ?_ }
  · show (evictState s v).frames.length = (evictState s v).pool_size
    rw [evictState_frames, evictState_pool, List.length_set]
    exact h.hlen
  · intro f hf
    rw [evictState_lru] at hf
    rw [evictState_pool]
    exact h.lru_lt f (List.mem_of_mem_erase hf)
  · rw [evictState_lru]
    exact h.lru_nodup.erase v
  · intro f hflt
    rw [evictState_pool] at hflt
    rw [evictState_free, evictState_lru, hfree]
    rcases h.cover f hflt with hf | hf
    · rw [hfree] at hf; simp at hf
    · by_cases hfv : f = v
      · left; rw [hfv]; simp
      · right; exact (List.mem_erase_of_ne hfv).mpr hf
  · intro e he
    rw [evictState_pt] at he
    rw [evictState_pool]
    exact h.pt_lt e (ptErase_mem he).1
  · intro e he
    rw [evictState_pt] at he
    rw [evictState_free, hfree]
    obtain ⟨hmem, hne⟩ := ptErase_mem he
    simp only [List.nil_append, List.mem_singleton]
    intro hev
    exact hne (hvpid e hmem hev)
  · intro e he
    rw [evictState_pt] at he
    obtain ⟨hmem, hne⟩ := ptErase_mem he
    have hev : e.2 ≠ v := fun hev => hne (hvpid e hmem hev)
    rw [hframes e.2 hev]
    exact h.pt_pid e hmem
  · rw [evictState_pt]
    exact (h.pt_keys).sublist (ptErase_keys_sublist _ _)
  · rw [evictState_lru, evictState_touch]
    exact h.sorted.sublist (List.erase_sublist v s.lru_list)
  · intro f hf
    rw [evictState_lru] at hf
    rw [evictState_touch, evictState_clock]
    exact h.touch_lt f (List.mem_of_mem_erase hf)

/-- Installing a page into the popped head of the free list and touching it
re-establishes the invariant. -/
theorem inv_install {s : BPState} {fid : Nat} {rest : List Nat}
    (hp : InstallPre s fid rest) (pid : Nat) (fr' : Frame)
    (hpid : fr'.page_id = pid) :
    Inv (updateLRU { setFrame { s with free_frames := rest } fid fr' with
          page_table := ptInsert s.page_table pid fid } fid) := by
  have herase_eq : s.lru_list.erase fid = s.lru_list :=
    List.erase_of_not_mem hp.fid_lru
  have hfid_frames : fid < s.frames.length := by rw [hp.hlen]; exact hp.fid_lt
  have hframes_self : (s.frames.set fid fr').getD fid initFrame = fr' :=
    getD_set_self _ _ _ _ hfid_frames
  have hframes_ne : ∀ g, g ≠ fid → (s.frames.set fid fr').getD g initFrame
      = frameAt s g := fun g hg => getD_set_ne _ _ _ _ _ hg
  refine
    { hlen := ?_
      free_lt := ?_
      free_nodup := hp.rest_nodup
      free_clean := ?_
      lru_lt := ?_
      lru_nodup := ?_
      disj := ?_
      cover := ?_
      pt_lt := ?_
      pt_not_free := ?_
      pt_pid := ?_
      pt_keys := ptInsert_keys_nodup hp.pt_keys
      sorted := ?_
      touch_lt := ?_ }
  · show (s.frames.set fid fr').length = s.pool_size
    rw [List.length_set]
    exact hp.hlen
  · exact hp.rest_lt
  · intro f hf
    have hffid : f ≠ fid := fun hh => hp.fid_rest (hh ▸ hf)
    show ((s.frames.set fid fr').getD f initFrame).page_id = INVALID_PAGE_ID
      ∧ ((s.frames.set fid fr').getD f initFrame).pin_count = 0
      ∧ ((s.frames.set fid fr').getD f initFrame).is_dirty = false
    rw [hframes_ne f hffid]
    exact hp.rest_clean f hf
  · show ∀ f ∈ s.lru_list.erase fid ++ [fid], f < s.pool_size
    rw [herase_eq]
    intro f hf
    rcases List.mem_append.mp hf with hf | hf
    · exact hp.lru_lt f hf
    · rw [List.mem_singleton.mp hf]; exact hp.fid_lt
  · show (s.lru_list.erase fid ++ [fid]).Nodup
    rw [herase_eq, List.nodup_append]
    refine ⟨hp.lru_nodup, by simp, ?_⟩
    intro a ha hb
    rw [List.mem_singleton.mp hb] at ha
    exact hp.fid_lru ha
  · show ∀ f ∈ rest, f ∉ s.lru_list.erase fid ++ [fid]
    rw [herase_eq]
    intro f hf hmem
    rcases List.mem_append.mp hmem with hm | hm
    · exact hp.rest_lru f hf hm
    · exact hp.fid_rest ((List.mem_singleton.mp hm) ▸ hf)
  · show ∀ f, f < s.pool_size → f ∈ rest ∨ f ∈ s.lru_list.erase fid ++ [fid]
    rw [herase_eq]
    intro f hflt
    rcases hp.cover f hflt with hf | hf
    · rw [hp.hfree] at hf
      rcases List.mem_cons.mp hf with hf | hf
      · right; exact List.mem_append.mpr (Or.inr (by simp [hf]))
      · left; exact hf
    · right; exact List.mem_append.mpr (Or.inl hf)
  · intro e he
    rcases ptInsert_mem he with he | ⟨he, _⟩
    · rw [he]; exact hp.fid_lt
    · exact hp.pt_lt e he
  · show ∀ e ∈ ptInsert s.page_table pid fid, e.2 ∉ rest
    intro e he
    rcases ptInsert_mem he with he | ⟨he, _⟩
    · rw [he]; exact hp.fid_rest
    · intro hmem
      apply hp.pt_not_free e he
      rw [hp.hfree]
      exact List.mem_cons_of_mem _ hmem
  · intro e he
    rcases ptInsert_mem he with he | ⟨he, _⟩
    · rw [he]
      show ((s.frames.set fid fr').getD fid initFrame).page_id = pid
      rw [hframes_self]
      exact hpid
    · have hefid : e.2 ≠ fid := by
        intro hh
        apply hp.pt_not_free e he
        rw [hp.hfree, hh]
        simp
      show ((s.frames.set fid fr').getD e.2 initFrame).page_id = e.1
      rw [hframes_ne e.2 hefid]
      exact hp.pt_pid e he
  · show (s.lru_list.erase fid ++ [fid]).Pairwise
      (fun a b => (if a = fid then s.clock else s.touch a)
        < (if b = fid then s.clock else s.touch b))
    rw [herase_eq, List.pairwise_append]
    refine ⟨?_, by simp, ?_⟩
    · apply hp.sorted.imp_of_mem
      intro a b ha hb hr
      have hafid : a ≠ fid := fun hh => hp.fid_lru (hh ▸ ha)
      have hbfid : b ≠ fid := fun hh => hp.fid_lru (hh ▸ hb)
      rw [if_neg hafid, if_neg hbfid]
      exact hr
    · intro a ha b hb
      rw [List.mem_singleton.mp hb]
      have hafid : a ≠ fid := fun hh => hp.fid_lru (hh ▸ ha)
      rw [if_neg hafid, if_pos rfl]
      exact hp.touch_lt a ha
  · show ∀ f ∈ s.lru_list.erase fid ++ [fid],
      (if f = fid then s.clock else s.touch f) < s.clock + 1
    rw [herase_eq]
    intro f hf
    by_cases hffid : f = fid
    · rw [if_pos hffid]; omega
    · rw [if_neg hffid]
      rcases List.mem_append.mp hf with hm | hm
      · have := hp.touch_lt f hm; omega
      · exact absurd (List.mem_singleton.mp hm) hffid

theorem inv_unpin {s : BPState} (h : Inv s) (pid : Nat) (d : Bool) :
    Inv (unpinPage s pid d).2 := by
  unfold unpinPage
  cases hlook : ptLookup s.page_table pid with
  | none => exact h
  | some fid =>
    dsimp only
    by_cases hpin : (frameAt s fid).pin_count ≤ 0
    · rw [if_pos hpin]
      exact h
    · rw [if_neg hpin]
      have hmem := ptLookup_mem hlook
      apply inv_update_resident h fid _ (h.pt_not_free _ hmem)
      cases d <;> rfl

theorem inv_flushp {s : BPState} (h : Inv s) (pid : Nat) :
    Inv (flushPage s pid).2 := by
  unfold flushPage
  cases hlook : ptLookup s.page_table pid with
  | none => exact h
  | some fid =>
    dsimp only
    by_cases hd : (frameAt s fid).is_dirty = true
    · rw [if_pos hd]
      have hmem := ptLookup_mem hlook
      exact inv_update_resident (inv_writePage h pid _) fid _
        (h.pt_not_free _ hmem) rfl
    · rw [if_neg hd]
      exact h

theorem inv_delete {s : BPState} (h : Inv s) (pid : Nat) :
    Inv (deletePage s pid).2 := by
  unfold deletePage
  cases hlook : ptLookup s.page_table pid with
  | none => exact h
  | some fid =>
    dsimp only
    by_cases hpin : (frameAt s fid).pin_count = 0
    · rw [if_pos hpin]
      have hmem := ptLookup_mem hlook
      have hfid_lt : fid < s.pool_size := h.pt_lt _ hmem
      have hfid_frames : fid < s.frames.length := by rw [h.hlen]; exact hfid_lt
      have hfid_free : fid ∉ s.free_frames := h.pt_not_free _ hmem
      have hfid_pid : (frameAt s fid).page_id = pid := h.pt_pid _ hmem
      set s1 := if (frameAt s fid).is_dirty = true
        then writePage s pid (frameAt s fid).pdata else s with hs1
      have h1frames : s1.frames = s.frames := by rw [hs1]; split <;> rfl
      have h1free : s1.free_frames = s.free_frames := by rw [hs1]; split <;> rfl
      have h1lru : s1.lru_list = s.lru_list := by rw [hs1]; split <;> rfl
      have h1pt : s1.page_table = s.page_table := by rw [hs1]; split <;> rfl
      have h1pool : s1.pool_size = s.pool_size := by rw [hs1]; split <;> rfl
      have h1clock : s1.clock = s.clock := by rw [hs1]; split <;> rfl
      have h1touch : s1.touch = s.touch := by rw [hs1]; split <;> rfl
      have hset_self : (s1.frames.set fid
          { frameAt s fid with
            page_id := INVALID_PAGE_ID
            pin_count := 0
            is_dirty := false }).getD fid initFrame
          = { frameAt s fid with
              page_id := INVALID_PAGE_ID
              pin_count := 0
              is_dirty := false } := by
        rw [h1frames]
        exact getD_set_self _ _ _ _ hfid_frames
      have hset_ne : ∀ g, g ≠ fid → (s1.frames.set fid
          { frameAt s fid with
            page_id := INVALID_PAGE_ID
            pin_count := 0
            is_dirty := false }).getD g initFrame = frameAt s g := by
        intro g hg
        rw [h1frames]
        exact getD_set_ne _ _ _ _ _ hg
      have hfid_not_er : fid ∉ s.lru_list.erase fid := by
        intro hmem'
        exact ((h.lru_nodup.mem_erase_iff).mp hmem').1 rfl
      refine
        { hlen := ?_
          free_lt := ?_
          free_nodup := ?_
          free_clean := ?_
          lru_lt := ?_
          lru_nodup := ?_
          disj := ?_
          cover := ?_
          pt_lt := ?_
          pt_not_free := ?_
          pt_pid := ?_
          pt_keys := ?_
          sorted := ?_
          touch_lt := ?_ }
      · show (s1.frames.set fid _).length = s1.pool_size
        rw [List.length_set, h1frames, h1pool]
        exact h.hlen
      · show ∀ f ∈ s1.free_frames ++ [fid], f < s1.pool_size
        rw [h1free, h1pool]
        intro f hf
        rcases List.mem_append.mp hf with hf | hf
        · exact h.free_lt f hf
        · rw [List.mem_singleton.mp hf]; exact hfid_lt
      · show (s1.free_frames ++ [fid]).Nodup
        rw [h1free, List.nodup_append]
        refine ⟨h.free_nodup, by simp, ?_⟩
        intro a ha hb
        rw [List.mem_singleton.mp hb] at ha
        exact hfid_free ha
      · show ∀ f ∈ s1.free_frames ++ [fid], _ ∧ _ ∧ _
        rw [h1free]
        intro f hf
        rcases List.mem_append.mp hf with hf | hf
        · have hffid : f ≠ fid := fun hh => hfid_free (hh ▸ hf)
          show ((s1.frames.set fid _).getD f initFrame).page_id = INVALID_PAGE_ID ∧
            ((s1.frames.set fid _).getD f initFrame).pin_count = 0 ∧
            ((s1.frames.set fid _).getD f initFrame).is_dirty = false
          rw [hset_ne f hffid]
          exact h.free_clean f hf
        · rw [List.mem_singleton.mp hf]
          show ((s1.frames.set fid _).getD fid initFrame).page_id = INVALID_PAGE_ID ∧
            ((s1.frames.set fid _).getD fid initFrame).pin_count = 0 ∧
            ((s1.frames.set fid _).getD fid initFrame).is_dirty = false
          rw [hset_self]
          exact ⟨rfl, rfl, rfl⟩
      · show ∀ f ∈ s1.lru_list.erase fid, f < s1.pool_size
        rw [h1lru, h1pool]
        intro f hf
        exact h.lru_lt f (List.mem_of_mem_erase hf)
      · show (s1.lru_list.erase fid).Nodup
        rw [h1lru]
        exact h.lru_nodup.erase fid
      · show ∀ f ∈ s1.free_frames ++ [fid], f ∉ s1.lru_list.erase fid
        rw [h1free, h1lru]
        intro f hf hmem'
        rcases List.mem_append.mp hf with hf | hf
        · exact h.disj f hf (List.mem_of_mem_erase hmem')
        · rw [List.mem_singleton.mp hf] at hmem'
          exact hfid_not_er hmem'
      · show ∀ f, f < s1.pool_size → f ∈ s1.free_frames ++ [fid] ∨ f ∈ s1.lru_list.erase fid
        rw [h1free, h1lru, h1pool]
        intro f hflt
        rcases h.cover f hflt with hf | hf
        · left; exact List.mem_append.mpr (Or.inl hf)
        · by_cases hffid : f = fid
          · left; exact List.mem_append.mpr (Or.inr (by simp [hffid]))
          · right; exact (List.mem_erase_of_ne hffid).mpr hf
      · show ∀ e ∈ ptErase s1.page_table pid, e.2 < s1.pool_size
        rw [h1pt, h1pool]
        intro e he
        exact h.pt_lt e (ptErase_mem he).1
      · show ∀ e ∈ ptErase s1.page_table pid, e.2 ∉ s1.free_frames ++ [fid]
        rw [h1pt, h1free]
        intro e he hmem'
        obtain ⟨hein, hene⟩ := ptErase_mem he
        rcases List.mem_append.mp hmem' with hm | hm
        · exact h.pt_not_free e hein hm
        · have he2 : e.2 = fid := List.mem_singleton.mp hm
          apply hene
          rw [← hfid_pid, ← he2]
          exact (h.pt_pid e hein).symm
      · show ∀ e ∈ ptErase s1.page_table pid,
          ((s1.frames.set fid _).getD e.2 initFrame).page_id = e.1
        rw [h1pt]
        intro e he
        obtain ⟨hein, hene⟩ := ptErase_mem he
        have he2 : e.2 ≠ fid := by
          intro hh
          apply hene
          rw [← hfid_pid, ← hh]
          exact (h.pt_pid e hein).symm
        rw [hset_ne e.2 he2]
        exact h.pt_pid e hein
      · show ((ptErase s1.page_table pid).map Prod.fst).Nodup
        rw [h1pt]
        exact h.pt_keys.sublist (ptErase_keys_sublist _ _)
      · show (s1.lru_list.erase fid).Pairwise (fun a b => s1.touch a < s1.touch b)
        rw [h1lru, h1touch]
        exact h.sorted.sublist (List.erase_sublist fid s.lru_list)
      · show ∀ f ∈ s1.lru_list.erase fid, s1.touch f < s1.clock
        rw [h1lru, h1touch, h1clock]
        intro f hf
        exact h.touch_lt f (List.mem_of_mem_erase hf)
    · rw [if_neg hpin]
      exact h

theorem inv_flushFrameStep {s : BPState} (h : Inv s) (i : Nat) :
    Inv (flushFrameStep s i) := by
  unfold flushFrameStep
  by_cases hc : (frameAt s i).page_id ≠ INVALID_PAGE_ID ∧ (frameAt s i).is_dirty = true
  · rw [if_pos hc]
    have hnotfree : i ∉ s.free_frames := by
      intro hmem
      exact hc.1 (h.free_clean i hmem).1
    exact inv_update_resident (inv_writePage h _ _) i _ hnotfree rfl
  · rw [if_neg hc]
    exact h

theorem inv_flushAll {s : BPState} (h : Inv s) : Inv (flushAllDirtyPages s) := by
  unfold flushAllDirtyPages
  generalize List.range s.frames.length = l
  induction l generalizing s with
  | nil => exact h
  | cons i rest ih =>
    exact ih (inv_flushFrameStep h i)

theorem inv_fetch {s : BPState} (h : Inv s) (pid : Nat) :
    Inv (fetchPage s pid).2 := by
  unfold fetchPage
  cases hlook : ptLookup s.page_table pid with
  | some fid =>
    have hmem := ptLookup_mem hlook
    have hfid_lt : fid < s.pool_size := h.pt_lt _ hmem
    have hnotfree : fid ∉ s.free_frames := h.pt_not_free _ hmem
    have h1 : Inv (setFrame s fid
        { frameAt s fid with pin_count := (frameAt s fid).pin_count + 1 }) :=
      inv_update_resident h fid _ hnotfree rfl
    exact inv_updateLRU h1 fid hfid_lt hnotfree
  | none =>
    cases hfe : s.free_frames with
    | cons f0 rest =>
      simp only [List.isEmpty_cons, Bool.false_eq_true, if_false, hfe]
      exact inv_install (installPre_of_inv h hfe) pid
        { page_id := pid
          pdata := readPageData { s with free_frames := rest } pid
          ppid := pid
          pin_count := 1
          is_dirty := false } rfl
    | nil =>
      have hcond : (if ([] : List Nat).isEmpty = true then evictPage s else (true, s))
          = evictPage s := rfl
      rw [hcond]
      cases hscan : scanLRU s s.lru_list with
      | none =>
        simp only [evictPage, hscan]
        exact h
      | some v =>
        simp only [evictPage, hscan]
        have hpre := installPre_of_evict h hfe hscan
        rw [hpre.hfree]
        exact inv_install hpre pid
          { page_id := pid
            pdata := readPageData { evictState s v with free_frames := [] } pid
            ppid := pid
            pin_count := 1
            is_dirty := false } rfl

theorem inv_new {s : BPState} (h : Inv s) : Inv (newPage s).2 := by
  unfold newPage
  cases hfe : s.free_frames with
  | cons f0 rest =>
    simp only [List.isEmpty_cons, Bool.false_eq_true, if_false, hfe]
    have hp := installPre_of_inv h hfe
    have hp' : InstallPre { s with counter := (s.counter + 1) % U16_MOD } f0 rest :=
      { hp with }
    exact inv_install hp' s.counter
      { page_id := s.counter
        pdata := emptyPageData
        ppid := s.counter
        pin_count := 1
        is_dirty := true } rfl
  | nil =>
    have hcond : (if ([] : List Nat).isEmpty = true then evictPage s else (true, s))
        = evictPage s := rfl
    rw [hcond]
    cases hscan : scanLRU s s.lru_list with
    | none =>
      simp only [evictPage, hscan]
      exact h
    | some v =>
      simp only [evictPage, hscan]
      have hpre := installPre_of_evict h hfe hscan
      rw [hpre.hfree]
      have hpre' : InstallPre { evictState s v with
          counter := ((evictState s v).counter + 1) % U16_MOD } v [] :=
        { hpre with }
      exact inv_install hpre' (evictState s v).counter
        { page_id := (evictState s v).counter
          pdata := emptyPageData
          ppid := (evictState s v).counter
          pin_count := 1
          is_dirty := true } rfl

theorem inv_step {s : BPState} (h : Inv s) (op : BPOp) : Inv (stepOp s op) := by
  cases op with
  | fetch pid => exact inv_fetch h pid
  | fresh => exact inv_new h
  | unpin pid d => exact inv_unpin h pid d
  | flushp pid => exact inv_flushp h pid
  | del pid => exact inv_delete h pid
  | flushAll => exact inv_flushAll h

theorem frameAt_init (n : Nat) (f : Nat) : frameAt (initState n) f = initFrame := by
  show (List.replicate n initFrame).getD f initFrame = initFrame
  rw [List.getD_eq_getElem?_getD, List.getElem?_replicate]
  split <;> rfl

theorem inv_init (n : Nat) : Inv (initState n) :=
  { hlen := by simp [initState]
    free_lt := by intro f hf; simpa [initState] using List.mem_range.mp hf
    free_nodup := List.nodup_range n
    free_clean := by
      intro f hf
      rw [frameAt_init]
      exact ⟨rfl, rfl, rfl⟩
    lru_lt := by intro f hf; simp [initState] at hf
    lru_nodup := List.nodup_nil
    disj := by intro f hf hm; simp [initState] at hm
    cover := by
      intro f hf
      left
      show f ∈ List.range n
      exact List.mem_range.mpr (by simpa [initState] using hf)
    pt_lt := by intro e he; simp [initState] at he
    pt_not_free := by intro e he; simp [initState] at he
    pt_pid := by intro e he; simp [initState] at he
    pt_keys := by simp [initState]
    sorted := by
      show List.Pairwise _ ([] : List Nat)
      exact List.Pairwise.nil
    touch_lt := by intro f hf; simp [initState] at hf }

theorem inv_foldl (ops : List BPOp) : ∀ s, Inv s → Inv (ops.foldl stepOp s) := by
  induction ops with
  | nil => intro s h; exact h
  | cons op rest ih => intro s h; exact ih _ (inv_step h op)

theorem inv_runOps (n : Nat) (ops : List BPOp) : Inv (runOps n ops) :=
  inv_foldl ops _ (inv_init n)

theorem inv_reachable {n : Nat} {s : BPState} (h : Reachable n s) : Inv s := by
  obtain ⟨ops, hops⟩ := h
  rw [← hops]
  exact inv_runOps n ops

theorem scanLRU_eq_find (s : BPState) (l : List Nat) :
    scanLRU s l = l.find? (fun f => (frameAt s f).pin_count == 0) := by
  induction l with
  | nil => rfl
  | cons g rest ih =>
    rw [List.find?_cons]
    by_cases hg : (frameAt s g).pin_count = 0
    · have hb : ((frameAt s g).pin_count == 0) = true := by simpa using hg
      simp only [scanLRU, if_pos hg, hb]
    · have hb : ((frameAt s g).pin_count == 0) = false := by simpa using hg
      simp only [scanLRU, if_neg hg, hb, ih]

/-- C5: eviction scans `lru_list` from the head and selects the first frame
with `pin_count = 0` (the `find?` of the list), failing and leaving the
state unchanged when every frame in `lru_list` is pinned; a selected victim
always has `pin_count = 0`; and in a reachable state in which the free list
is empty and every frame is unpinned, the victim is the head of `lru_list`,
the frame whose ghost last-touch stamp — set exactly when a frame is
returned by `fetch_page`/`new_page` or touched by a fetch hit — is
minimal over all frames. -/
theorem evictPage_lru_policy (n : Nat) (s : BPState) (hreach : Reachable n s) :
    (scanLRU s s.lru_list = s.lru_list.find? (fun f => (frameAt s f).pin_count == 0))
    ∧ ((∀ f ∈ s.lru_list, (frameAt s f).pin_count ≠ 0) → evictPage s = (false, s))
    ∧ (∀ f, scanLRU s s.lru_list = some f →
        (frameAt s f).pin_count = 0 ∧ (evictPage s).1 = true)
    ∧ (s.free_frames = [] → 0 < s.pool_size →
        (∀ f, f < s.pool_size → (frameAt s f).pin_count = 0) →
        ∃ hd tl, s.lru_list = hd :: tl ∧ scanLRU s s.lru_list = some hd
          ∧ ∀ f, f < s.pool_size → s.touch hd ≤ s.touch f) := by
  have h := inv_reachable hreach
  refine ⟨scanLRU_eq_find s s.lru_list, ?_, ?_, ?_⟩
  · intro hall
    have hscan : scanLRU s s.lru_list = none := scanLRU_eq_none s _ hall
    simp [evictPage, hscan]
  · intro f hscan
    refine ⟨(scanLRU_some hscan).2, ?_⟩
    simp [evictPage, hscan]
  · intro hfree hpool hunpinned
    have hzero_mem : (0 : Nat) ∈ s.lru_list := by
      rcases h.cover 0 hpool with hm | hm
      · rw [hfree] at hm; simp at hm
      · exact hm
    obtain ⟨hd, tl, hlru⟩ : ∃ hd tl, s.lru_list = hd :: tl := by
      cases hl : s.lru_list with
      | nil => rw [hl] at hzero_mem; simp at hzero_mem
      | cons a b => exact ⟨a, b, rfl⟩
    have hhd_lt : hd < s.pool_size := h.lru_lt hd (by rw [hlru]; simp)
    have hscan : scanLRU s s.lru_list = some hd := by
      rw [hlru]
      simp only [scanLRU, if_pos (hunpinned hd hhd_lt)]
    refine ⟨hd, tl, hlru, hscan, ?_⟩
    intro f hflt
    have hfmem : f ∈ s.lru_list := by
      rcases h.cover f hflt with hm | hm
      · rw [hfree] at hm; simp at hm
      · exact hm
    rw [hlru] at hfmem
    rcases List.mem_cons.mp hfmem with hf | hf
    · rw [hf]
    · have hsorted := h.sorted
      rw [hlru] at hsorted
      have := (List.pairwise_cons.mp hsorted).1 f hf
      omega

/-- C5 witness: on `c5S` the eviction policy theorem applies and names
frame 0, the least recently touched frame, as the victim. -/
theorem evictPage_lru_policy_witness :
    ∃ hd tl, c5S.lru_list = hd :: tl ∧ scanLRU c5S c5S.lru_list = some hd
      ∧ ∀ f, f < c5S.pool_size → c5S.touch hd ≤ c5S.touch f :=
  (evictPage_lru_policy 2 c5S
      ⟨[BPOp.fresh, BPOp.unpin 0 true, BPOp.fresh, BPOp.unpin 1 true], rfl⟩).2.2.2
    (by decide) (by decide) (by decide)

/-- C6 counterexample: on the reachable state `c5S`, `evictPage` evicts the
dirty unpinned frame 0 and pushes it onto the free list with
`is_dirty` still `true` — the claim's "holds immediately after evictPage
returns a frame to the free list" is false for the dirty flag. -/
theorem evictPage_leaves_dirty_free_frame :
    Reachable 2 c5S
    ∧ (evictPage c5S).2.free_frames = [0]
    ∧ (frameAt (evictPage c5S).2 0).page_id = INVALID_PAGE_ID
    ∧ (frameAt (evictPage c5S).2 0).pin_count = 0
    ∧ (frameAt (evictPage c5S).2 0).is_dirty = true :=
  ⟨⟨[BPOp.fresh, BPOp.unpin 0 true, BPOp.fresh, BPOp.unpin 1 true], rfl⟩,
    by decide, by decide, by decide, by decide⟩

/-- C6 (amended): in every reachable pool state — that is, between public
operations — every frame index in `free_frames` has
`page_id = INVALID_PAGE_ID`, `pin_count = 0` and `is_dirty = false`; in
particular this holds after `delete_page` frees a frame.  (Immediately
after the internal `evictPage` a dirty victim keeps its dirty flag, see the
counterexample; the caller reinitializes the frame before the operation
returns.) -/
theorem free_frames_clean (n : Nat) (s : BPState) (hreach : Reachable n s) :
    ∀ f ∈ s.free_frames,
      (frameAt s f).page_id = INVALID_PAGE_ID ∧ (frameAt s f).pin_count = 0 ∧
      (frameAt s f).is_dirty = false :=
  (inv_reachable hreach).free_clean

/-- C6 witness: after creating a dirty page and deleting it, the freed
frame is clean again. -/
theorem free_frames_clean_witness :
    (frameAt (runOps 2 [BPOp.fresh, BPOp.unpin 0 true, BPOp.del 0]) 0).is_dirty = false :=
  (free_frames_clean 2 (runOps 2 [BPOp.fresh, BPOp.unpin 0 true, BPOp.del 0])
    ⟨[BPOp.fresh, BPOp.unpin 0 true, BPOp.del 0], rfl⟩ 0 (by decide)).2.2

end SriDB
